import Mathlib

/-!
Verification of the constraint-based shift-assignment optimizer of the
AI_Duty_Rota_Scheduling repository.

The development shallowly embeds the scheduling core:
* `backend/src/scheduling/domain.py` (TimeSpan, Employee, Shift, ShiftSchedule),
* `backend/src/scheduling/constraint_library.py` (the named constraint
  evaluators and `build_constraint_provider`),
* `backend/src/scheduling/json_utils.py` (`parse_schedule`, `format_output`),
* the alternate generated engine `backend/generated/constraints.py`
  (its `balance_hours` and `minimum_coverage`, and the name dispatch of
  `get_score_constraints`).

Modelling conventions:
* Python `datetime` instants are modelled as naturals counting seconds since
  an epoch; `date()` is the day index `t / 86400` and `hour` is
  `t % 86400 / 3600`.
* Python string comparison `<` (used by the `one_shift_per_day` joiner and
  the `(start, id)` sort key of `format_output`) is lexicographic on code
  points; it is embedded as the structurally recursive `strLt` below.
* Timefold constraint streams are embedded by their match semantics: a
  `for_each ... filter ... join` pipeline penalizing `ONE_HARD` contributes
  the number of matching tuples, and a soft `penalize` with a match weight
  contributes the sum of the match weights.
* Python dict-based grouping (`group_by`, and the `employee_hours` dict of
  `format_output`) is embedded with association lists keyed in first
  insertion order, which is the observable dict behaviour.
-/

/-- Calendar-date index of an instant, as in Python `datetime.date()`:
the number of whole days since the epoch. -/
def date_of (t : Nat) : Nat := t / 86400

/-- Hour of day of an instant, as in Python `datetime.hour`. -/
def hour_of (t : Nat) : Nat := t % 86400 / 3600

/-- Lexicographic strict order on code-point lists, the semantics of
Python string comparison `<`. A proper prefix is smaller. -/
def charsLt : List Char → List Char → Bool
  | [], [] => false
  | [], _ :: _ => true
  | _ :: _, [] => false
  | a :: as, b :: bs =>
    if a.toNat < b.toNat then true
    else if b.toNat < a.toNat then false
    else charsLt as bs

/-- Python string `<` on the underlying code points. -/
def strLt (a b : String) : Bool := charsLt a.data b.data

theorem charsLt_irrefl : ∀ l : List Char, charsLt l l = false := by
  intro l
  induction l with
  | nil => rfl
  | cons a as ih => simp [charsLt, Nat.lt_irrefl, ih]

theorem charsLt_trans : ∀ l1 l2 l3 : List Char,
    charsLt l1 l2 = true → charsLt l2 l3 = true → charsLt l1 l3 = true := by
  intro l1
  induction l1 with
  | nil =>
    intro l2 l3 h12 h23
    cases l3 with
    | nil =>
      cases l2 with
      | nil => exact h12
      | cons b bs => simp [charsLt] at h23
    | cons c cs => simp [charsLt]
  | cons a as ih =>
    intro l2 l3 h12 h23
    cases l2 with
    | nil => simp [charsLt] at h12
    | cons b bs =>
      cases l3 with
      | nil => simp [charsLt] at h23
      | cons c cs =>
        simp only [charsLt] at h12 h23 ⊢
        by_cases hab : a.toNat < b.toNat
        · by_cases hbc : b.toNat < c.toNat
          · simp [Nat.lt_trans hab hbc]
          · by_cases hcb : c.toNat < b.toNat
            · simp [hbc, hcb] at h23
            · have hbc2 : b.toNat = c.toNat := by omega
              simp [hbc2 ▸ hab]
        · by_cases hba : b.toNat < a.toNat
          · simp [hab, hba] at h12
          · have hab2 : a.toNat = b.toNat := by omega
            simp [hab, hba] at h12
            by_cases hbc : b.toNat < c.toNat
            · simp [hab2 ▸ hbc]
            · by_cases hcb : c.toNat < b.toNat
              · simp [hbc, hcb] at h23
              · simp [hbc, hcb] at h23
                have hac : ¬ a.toNat < c.toNat := by omega
                have hca : ¬ c.toNat < a.toNat := by omega
                simp [hac, hca]
                exact ih bs cs h12 h23

theorem charsLt_asymm {l1 l2 : List Char} (h : charsLt l1 l2 = true) :
    charsLt l2 l1 = false := by
  by_contra hcon
  have h21 : charsLt l2 l1 = true := by
    cases hval : charsLt l2 l1 with
    | false => exact absurd hval hcon
    | true => rfl
  have := charsLt_trans l1 l2 l1 h h21
  rw [charsLt_irrefl] at this
  exact Bool.false_ne_true this

theorem charsLt_connex : ∀ l1 l2 : List Char,
    charsLt l1 l2 = false → charsLt l2 l1 = false → l1 = l2 := by
  intro l1
  induction l1 with
  | nil =>
    intro l2 h12 _
    cases l2 with
    | nil => rfl
    | cons b bs => simp [charsLt] at h12
  | cons a as ih =>
    intro l2 h12 h21
    cases l2 with
    | nil => simp [charsLt] at h21
    | cons b bs =>
      simp only [charsLt] at h12 h21
      by_cases hab : a.toNat < b.toNat
      · simp [hab] at h12
      · by_cases hba : b.toNat < a.toNat
        · simp [hab, hba] at h21
        · simp only [Char.toNat] at hab hba
          have hv : a.val = b.val := UInt32.toNat.inj (by omega)
          have hc : a = b := Char.eq_of_val_eq hv
          subst hc
          simp [Nat.lt_irrefl] at h12 h21
          rw [ih bs h12 h21]

theorem strLt_irrefl (s : String) : strLt s s = false := charsLt_irrefl s.data

theorem strLt_asymm {a b : String} (h : strLt a b = true) : strLt b a = false :=
  charsLt_asymm h

theorem strLt_trans {a b c : String} (h1 : strLt a b = true)
    (h2 : strLt b c = true) : strLt a c = true :=
  charsLt_trans a.data b.data c.data h1 h2

theorem strLt_connex {a b : String} (h1 : strLt a b = false)
    (h2 : strLt b a = false) : a = b := by
  cases a with
  | mk la =>
    cases b with
    | mk lb =>
      have : la = lb := charsLt_connex la lb h1 h2
      rw [this]

theorem strLt_total_of_ne {a b : String} (h : a ≠ b) :
    strLt a b = true ∨ strLt b a = true := by
  cases hab : strLt a b with
  | true => exact Or.inl rfl
  | false =>
    cases hba : strLt b a with
    | true => exact Or.inr rfl
    | false => exact absurd (strLt_connex hab hba) h

/-- Embedding of `domain.TimeSpan`: a span of instants. The source field
`end` is a Lean keyword and is rendered as `stop`. -/
structure TimeSpan where
  start : Nat
  stop : Nat
deriving DecidableEq

/-- Embedding of `TimeSpan.overlaps`: half-open interval intersection,
`max(self.start, other_start) < min(self.end, other_end)`. -/
def TimeSpan.overlaps (ts : TimeSpan) (other_start other_end : Nat) : Bool :=
  decide (max ts.start other_start < min ts.stop other_end)

/-- Embedding of `domain.Employee` (a problem fact, identity by `id`). -/
structure Employee where
  id : String
  name : String
  skills : List String
  contracted_hours : Int
  owing_hours : Int
  paid_absence_hours : Int
  target_working_hours : Int
  unavailable_time_spans : List TimeSpan
  preferred_time_spans : List TimeSpan
  mentor_id : Option String
deriving DecidableEq

/-- Embedding of `Employee.is_unavailable`: some unavailable span overlaps
the given window. -/
def Employee.is_unavailable (e : Employee) (shift_start shift_end : Nat) : Bool :=
  e.unavailable_time_spans.any (fun ts => ts.overlaps shift_start shift_end)

/-- Embedding of `Employee.has_preference`: some preferred span overlaps
the given window. -/
def Employee.has_preference (e : Employee) (shift_start shift_end : Nat) : Bool :=
  e.preferred_time_spans.any (fun ts => ts.overlaps shift_start shift_end)

/-- Embedding of `domain.Shift` (the planning entity). The source field
`end` is rendered as `stop`; `employee` is the planning variable. -/
structure Shift where
  id : String
  code : String
  start : Nat
  stop : Nat
  hours : Int
  locked_employee_id : Option String := none
  employee : Option Employee := none
deriving DecidableEq

/-- Embedding of `Shift.get_date`. -/
def Shift.get_date (s : Shift) : Nat := date_of s.start

/-- Embedding of `Shift.is_night_shift` in `backend/src/scheduling/domain.py`:
crosses midnight or starts at hour 22 or later (this file uses the 22:00
threshold variant). -/
def Shift.is_night_shift (s : Shift) : Bool :=
  decide (date_of s.stop > date_of s.start) || decide (hour_of s.start ≥ 22)

/-- Embedding of `Shift.is_morning_shift`: starts before noon. -/
def Shift.is_morning_shift (s : Shift) : Bool :=
  decide (hour_of s.start < 12)

/-- Python `==` on optional employees as used by the Timefold joiners:
`None == None` is true, an `Employee` equals another exactly when the ids
are equal (`Employee.__eq__`), and `Employee == None` is false. -/
def empKeyEq : Option Employee → Option Employee → Bool
  | some a, some b => a.id == b.id
  | none, none => true
  | _, _ => false

theorem empKeyEq_symm : ∀ oa ob, empKeyEq oa ob = empKeyEq ob oa := by
  intro oa ob
  cases oa with
  | none => cases ob <;> rfl
  | some a =>
    cases ob with
    | none => rfl
    | some b =>
      by_cases h : a.id = b.id
      · simp [empKeyEq, h]
      · have h2 : ¬ b.id = a.id := fun hc => h hc.symm
        simp [empKeyEq, h, h2]

/-- Configuration entry of the `constraintConfig` lists: a Python dict with
the keys the core consults (`name`, `weight`, `restHours`, `maxConsecutive`);
an absent key is `none`. -/
structure ConfigEntry where
  name : Option String := none
  weight : Option Int := none
  restHours : Option Int := none
  maxConsecutive : Option Int := none
deriving DecidableEq

/-- Embedding of the `constraint_config` dict: its `hard` and `soft` lists. -/
structure ConstraintConfig where
  hard : List ConfigEntry := []
  soft : List ConfigEntry := []
deriving DecidableEq

/-- Embedding of `ShiftSchedule.get_max_consecutive_night_shifts`: the
`maxConsecutive` value of the first soft entry named
`avoid_consecutive_nights`, defaulting to 2. -/
def get_max_consecutive_night_shifts (cfg : ConstraintConfig) : Int :=
  match cfg.soft.find? (fun c => c.name == some "avoid_consecutive_nights") with
  | some c => c.maxConsecutive.getD 2
  | none => 2

/-- Embedding of `ShiftSchedule.get_rest_hours_between_shifts`: the
`restHours` value of the first hard entry named `no_night_then_morning`,
defaulting to 10. -/
def get_rest_hours_between_shifts (cfg : ConstraintConfig) : Int :=
  match cfg.hard.find? (fun c => c.name == some "no_night_then_morning") with
  | some c => c.restHours.getD 10
  | none => 10

/-- Embedding of `domain.ShiftSchedule` (the planning solution). Only the
`minNursesPerShift` key of the `config` dict is consulted by the core, so
the dict is modelled by that optional value; `score` is the optional
`(hard, soft)` pair of `HardSoftScore`. -/
structure ShiftSchedule where
  employees : List Employee := []
  shifts : List Shift := []
  minNursesPerShift : Option Int := none
  constraint_config : ConstraintConfig := {}
  score : Option (Int × Int) := none
deriving DecidableEq

/-- First-occurrence deduplication of a list under a boolean equivalence,
carrying the already-kept representatives; this is the observable grouping
behaviour of a Python dict keyed by the equivalence class. -/
def dedupByAux {α : Type} (eqv : α → α → Bool) (seen : List α) : List α → List α
  | [] => []
  | a :: rest =>
    if seen.any (fun b => eqv b a) then dedupByAux eqv seen rest
    else a :: dedupByAux eqv (a :: seen) rest

/-- Representatives of the equivalence classes of a list, in first
occurrence order. -/
def dedupBy {α : Type} (eqv : α → α → Bool) (l : List α) : List α :=
  dedupByAux eqv [] l

/-- Embedding of the `one_shift_per_day` hard constraint of
`constraint_library.py`: shifts with an employee joined with shifts of the
same employee on the same calendar date with a strictly larger id
(Python string comparison), one hard penalty per match. -/
def one_shift_per_day (shifts : List Shift) : Nat :=
  ((shifts.filter fun s => s.employee.isSome).map fun s1 =>
    shifts.countP fun s2 =>
      empKeyEq s1.employee s2.employee && (s1.get_date == s2.get_date)
        && strLt s1.id s2.id).sum

/-- Embedding of the `no_night_then_morning` hard constraint of
`constraint_library.py`: an assigned night shift joined with a later shift
of the same employee (`Joiners.less_than` on end versus start, strict),
filtered to morning shifts starting within `rest_hours` hours of the end.
The source compares `(s2.start - s1.end).total_seconds() / 3600 <
rest_hours` with real division, which for whole seconds equals the integer
comparison used here. -/
def no_night_then_morning (rest_hours : Int) (shifts : List Shift) : Nat :=
  ((shifts.filter fun s => s.employee.isSome && s.is_night_shift).map fun s1 =>
    shifts.countP fun s2 =>
      empKeyEq s1.employee s2.employee && decide (s1.stop < s2.start)
        && s2.is_morning_shift
        && decide ((s2.start : Int) - (s1.stop : Int) < rest_hours * 3600)).sum

/-- Embedding of the `honor_unavailability` hard constraint: one hard
penalty per shift whose assigned employee is unavailable for its span. -/
def honor_unavailability (shifts : List Shift) : Nat :=
  shifts.countP fun s =>
    match s.employee with
    | some e => e.is_unavailable s.start s.stop
    | none => false

/-- Embedding of the `honor_locked_assignments` hard constraint: one hard
penalty per shift with a `locked_employee_id` that is unassigned or
assigned to an employee with a different id. -/
def honor_locked_assignments (shifts : List Shift) : Nat :=
  shifts.countP fun s =>
    match s.locked_employee_id, s.employee with
    | some _, none => true
    | some lid, some e => e.id != lid
    | none, _ => false

/-- Employees that occur as the assignment of some shift, one
representative per id, in first occurrence order: the groups produced by
`group_by(lambda s: s.employee, ...)` over the assigned shifts. -/
def assigned_employees (shifts : List Shift) : List Employee :=
  dedupBy (fun a b => a.id == b.id) (shifts.filterMap fun s => s.employee)

/-- Total hours collected for one group: the sum of `hours` over the
shifts assigned to the employee (Python employee equality is id
equality). -/
def total_hours_for (shifts : List Shift) (e : Employee) : Int :=
  ((shifts.filter fun s => empKeyEq s.employee (some e)).map fun s => s.hours).sum

/-- Embedding of the `balance_hours` soft constraint of
`constraint_library.py`: per assigned-employee group the match weight is
`abs(target_working_hours - total_hours) * weight // 100` (Python floor
division) soft points. -/
def balance_hours (weight : Int) (shifts : List Shift) : Int :=
  ((assigned_employees shifts).map fun e =>
    (|e.target_working_hours - total_hours_for shifts e| * weight).fdiv 100).sum

/-- Embedding of the `balance_hours` soft constraint of the generated
engine `backend/generated/constraints.py`: it penalizes
`HardSoftScore.of_soft(weight)` with match weight
`abs(targetWorkingHours - total_hours_worked)`, so each group contributes
the absolute deviation times the weight, with no division. -/
def balance_hours_gen (weight : Int) (shifts : List Shift) : Int :=
  ((assigned_employees shifts).map fun e =>
    |e.target_working_hours - total_hours_for shifts e| * weight).sum

/-- Embedding of the `avoid_consecutive_nights` soft constraint of
`constraint_library.py`: an assigned night shift joined with a night shift
of the same employee on the next calendar date, `weight` soft points per
match. The `max_consecutive` parameter of the source function is never
read by its body. -/
def avoid_consecutive_nights (weight : Int) (shifts : List Shift) : Int :=
  weight * (((shifts.filter fun s => s.employee.isSome && s.is_night_shift).map fun s1 =>
    shifts.countP fun s2 =>
      empKeyEq s1.employee s2.employee && (s1.get_date + 1 == s2.get_date)
        && s2.is_night_shift).sum : Nat)

/-- Keys of the `HARD_CONSTRAINTS` registry dict of
`constraint_library.py`. -/
def HARD_CONSTRAINTS : List String :=
  ["one_shift_per_day", "no_night_then_morning", "honor_unavailability",
   "honor_locked_assignments", "required_skill"]

/-- Keys of the `SOFT_CONSTRAINTS` registry dict of
`constraint_library.py`. -/
def SOFT_CONSTRAINTS : List String :=
  ["balance_hours", "honor_preferences", "avoid_consecutive_nights",
   "fair_shift_distribution"]

/-- Membership test `c.get("name") in REGISTRY` used by
`build_constraint_provider`; an entry without a name is never a member. -/
def recognized (registry : List String) (c : ConfigEntry) : Bool :=
  match c.name with
  | some n => registry.contains n
  | none => false

/-- Embedding of `build_constraint_provider`: the list of constraints the
returned provider defines, each identified by its axis (`true` for hard)
and the configuration entry passed to the registered builder as `**c`.
Entries whose name is not a registry key contribute nothing. -/
def build_constraint_provider (cfg : ConstraintConfig) : List (Bool × ConfigEntry) :=
  ((cfg.hard.filter (recognized HARD_CONSTRAINTS)).map fun c => (true, c))
    ++ ((cfg.soft.filter (recognized SOFT_CONSTRAINTS)).map fun c => (false, c))

/-- Test whether some entry of a configuration list bears the given name,
as in `any(c["name"] == n for c in ...)`. -/
def has_name (entries : List ConfigEntry) (n : String) : Bool :=
  entries.any fun c => c.name == some n

/-- Embedding of `get_score_constraints` of the generated engine
`backend/generated/constraints.py`: the names of the constraints it
appends, in order. -/
def get_score_constraints (cfg : ConstraintConfig) : List String :=
  (if has_name cfg.hard "one_shift_per_day" then ["one_shift_per_day"] else [])
  ++ (if has_name cfg.hard "no_night_then_morning" then ["no_night_then_morning"] else [])
  ++ (if has_name cfg.hard "honor_unavailability" then ["honor_unavailability"] else [])
  ++ (if has_name cfg.hard "minimum_coverage" then ["minimum_coverage"] else [])
  ++ (cfg.soft.filterMap fun c =>
      match c.name with
      | some "balance_hours" => some "balance_hours"
      | some "honor_preferences" => some "honor_preferences"
      | some "pair_trainees" => some "pair_trainees"
      | some "avoid_consecutive_nights" => some "avoid_consecutive_nights"
      | _ => none)

/-- Distinct values of the `employee` field under Python equality, as
counted by `count_distinct(lambda shift: shift.employee)`. -/
def count_distinct_employee_values (l : List (Option Employee)) : Nat :=
  (dedupBy empKeyEq l).length

/-- Embedding of the `minimum_coverage` hard constraint of the generated
engine: shifts grouped by `shift.id`, groups whose distinct employee count
is below `min_nurses` penalized by the difference. -/
def minimum_coverage (min_nurses : Int) (shifts : List Shift) : Int :=
  ((dedupBy (fun a b => a == b) (shifts.map fun s => s.id)).map fun sid =>
    let cnt : Int := count_distinct_employee_values
      ((shifts.filter fun s => s.id == sid).map fun s => s.employee)
    if cnt < min_nurses then min_nurses - cnt else 0).sum

/-- One element of the `employees` array of the input JSON; optional
fields model `dict.get` with its default. -/
structure EmployeeInput where
  id : String
  name : Option String := none
  skills : List String := []
  contractedHours : Option Int := none
  owingHours : Option Int := none
  paidAbsenceHours : Option Int := none
  targetWorkingHours : Option Int := none
  unavailableTimeSpans : List TimeSpan := []
  preferredTimeSpans : List TimeSpan := []
  mentorId : Option String := none
deriving DecidableEq

/-- One element of the `shifts` array of the input JSON. -/
structure ShiftInput where
  id : String
  code : Option String := none
  start : Nat
  stop : Nat
  hours : Option Int := none
  lockedEmployeeId : Option String := none
deriving DecidableEq

/-- The input JSON consumed by `parse_schedule`: employees, shifts, the
`config` dict (modelled by its one consulted key) and `constraintConfig`. -/
structure InputData where
  employees : List EmployeeInput := []
  shifts : List ShiftInput := []
  minNursesPerShift : Option Int := none
  constraintConfig : ConstraintConfig := {}
deriving DecidableEq

/-- Employee construction of `parse_schedule`, with the defaults of the
source (`name` defaults to the id, `contractedHours` and
`targetWorkingHours` to 160, the remaining hours to 0). -/
def make_employee (d : EmployeeInput) : Employee :=
  { id := d.id, name := d.name.getD d.id, skills := d.skills,
    contracted_hours := d.contractedHours.getD 160,
    owing_hours := d.owingHours.getD 0,
    paid_absence_hours := d.paidAbsenceHours.getD 0,
    target_working_hours := d.targetWorkingHours.getD 160,
    unavailable_time_spans := d.unavailableTimeSpans,
    preferred_time_spans := d.preferredTimeSpans,
    mentor_id := d.mentorId }

/-- The `employee_lookup` dict of `parse_schedule`, keyed by employee id;
a later duplicate id overwrites an earlier one. -/
def employee_lookup (employees : List Employee) (eid : String) : Option Employee :=
  employees.reverse.find? fun e => e.id == eid

/-- Shift construction of `parse_schedule`. The pre-assignment guard is
`if shift.locked_employee_id and shift.locked_employee_id in
employee_lookup`: Python truthiness skips an empty-string lock, and a
locked id absent from the lookup silently leaves the shift unassigned. -/
def make_shift (lookup : String → Option Employee) (d : ShiftInput) : Shift :=
  { id := d.id, code := d.code.getD "M", start := d.start, stop := d.stop,
    hours := d.hours.getD 8, locked_employee_id := d.lockedEmployeeId,
    employee :=
      match d.lockedEmployeeId with
      | some lid => if lid == "" then none else lookup lid
      | none => none }

/-- Embedding of `json_utils.parse_schedule`: builds the employees, the
shifts (with locked pre-assignment) and the schedule, performing no
validation of the input. -/
def parse_schedule (data : InputData) : ShiftSchedule :=
  let employees := data.employees.map make_employee
  { employees := employees,
    shifts := data.shifts.map (make_shift (employee_lookup employees)),
    minNursesPerShift := data.minNursesPerShift,
    constraint_config := data.constraintConfig,
    score := none }

/-- Stable insertion of an element into a list: it lands before the first
element it is strictly below and after every earlier equal-keyed one. -/
def insert_by {α : Type} (lt : α → α → Bool) (a : α) : List α → List α
  | [] => [a]
  | b :: l => if lt b a then b :: insert_by lt a l else a :: b :: l

/-- Stable comparison sort, the semantics of Python `sorted`. -/
def sort_by {α : Type} (lt : α → α → Bool) : List α → List α
  | [] => []
  | a :: l => insert_by lt a (sort_by lt l)

/-- Strict lexicographic order on the `(s.start, s.id)` sort key used by
`format_output`. -/
def shift_sort_key_lt (a b : Shift) : Bool :=
  decide (a.start < b.start) || ((a.start == b.start) && strLt a.id b.id)

/-- One element of the output `schedule` array. The `date` field holds the
calendar-date index that `strftime` renders as `YYYY-MM-DD`. -/
structure ScheduleEntry where
  date : Nat
  employeeId : String
  employeeName : String
  shiftCode : String
deriving DecidableEq

/-- The `summary` object of the output JSON; `employeeHours` is the dict
in insertion order. -/
structure ScheduleSummary where
  totalShifts : Nat
  assignedShifts : Nat
  unassignedShifts : Nat
  employeeHours : List (String × Int)
deriving DecidableEq

/-- The output JSON produced by `format_output`. -/
structure SolverOutput where
  status : String
  score : String
  schedule : List ScheduleEntry
  summary : ScheduleSummary
deriving DecidableEq

/-- The dict update `employee_hours[name] += hours`: the entry of an
existing key (keys are unique in a dict) is updated in place, a fresh key
is appended at the end, which is the dict insertion order. -/
def add_employee_hours : List (String × Int) → String → Int → List (String × Int)
  | [], name, h => [(name, h)]
  | (k, v) :: t, name, h =>
    if k == name then (k, v + h) :: t else (k, v) :: add_employee_hours t name h

/-- Rendering of the score: `str(schedule.score) if schedule.score else
"0hard/0soft"`; an absent score renders as the zero score. -/
def format_score : Option (Int × Int) → String
  | some hs => toString hs.1 ++ "hard/" ++ toString hs.2 ++ "soft"
  | none => "0hard/0soft"

/-- The schedule entry `format_output` appends for an assigned shift, and
nothing for an unassigned one. -/
def entry_of (s : Shift) : Option ScheduleEntry :=
  match s.employee with
  | some e => some { date := date_of s.start, employeeId := e.id,
                     employeeName := e.name, shiftCode := s.code }
  | none => none

/-- Embedding of `json_utils.format_output`: one pass over the shifts
sorted by `(start, id)`, collecting a schedule entry and the hours of each
assigned shift, plus the assignment counts. -/
def format_output (schedule : ShiftSchedule) : SolverOutput :=
  let sorted := sort_by shift_sort_key_lt schedule.shifts
  let schedule_list := sorted.filterMap entry_of
  let employee_hours := sorted.foldl (fun acc s =>
    match s.employee with
    | some e => add_employee_hours acc e.name s.hours
    | none => acc) []
  let assigned := (schedule.shifts.filter fun s => s.employee.isSome).length
  { status := "success",
    score := format_score schedule.score,
    schedule := schedule_list,
    summary := { totalShifts := schedule.shifts.length,
                 assignedShifts := assigned,
                 unassignedShifts := schedule.shifts.length - assigned,
                 employeeHours := employee_hours } }

theorem sum_map_ite_eq_countP {α : Type} (p : α → Bool) :
    ∀ l : List α, (l.map fun a => if p a = true then 1 else 0).sum = l.countP p := by
  intro l
  induction l with
  | nil => rfl
  | cons a t ih =>
    simp only [List.map_cons, List.sum_cons, List.countP_cons, ih]
    exact Nat.add_comm _ _

theorem countP_add_countP {α : Type} (p q r : α → Bool) :
    ∀ l : List α,
      (∀ x ∈ l, ((if p x = true then 1 else 0) + (if q x = true then 1 else 0) : Nat)
        = if r x = true then 1 else 0) →
      l.countP p + l.countP q = l.countP r := by
  intro l
  induction l with
  | nil => intro _; rfl
  | cons a t ih =>
    intro hx
    simp only [List.countP_cons]
    have ha := hx a (List.mem_cons_self a t)
    have ht := ih fun x hxt => hx x (List.mem_cons_of_mem a hxt)
    omega

theorem sum_map_add {α : Type} (f g : α → Nat) :
    ∀ l : List α, (l.map fun a => f a + g a).sum = (l.map f).sum + (l.map g).sum := by
  intro l
  induction l with
  | nil => rfl
  | cons a t ih =>
    simp only [List.map_cons, List.sum_cons, ih]
    omega

theorem sum_countP_filter {α : Type} (p : α → Bool) (q : α → α → Bool)
    (inner : List α) :
    ∀ outer : List α,
      (((outer.filter p).map fun a => inner.countP fun b => q a b).sum : Nat)
        = (outer.map fun a => inner.countP fun b => p a && q a b).sum := by
  intro outer
  induction outer with
  | nil => rfl
  | cons a t ih =>
    by_cases hp : p a = true
    · simp only [List.filter_cons, hp, if_true, List.map_cons, List.sum_cons, ih]
      have hc : (inner.countP fun b => true && q a b) = inner.countP fun b => q a b := by
        apply List.countP_congr
        intro x _
        simp
      rw [hc]
    · have hpf : p a = false := by revert hp; cases p a <;> simp
      have hz : (inner.countP fun b => false && q a b) = 0 := by
        apply List.countP_eq_zero.mpr
        intro x _
        simp
      simp only [List.filter_cons, hpf, Bool.false_eq_true, if_false,
        List.map_cons, List.sum_cons, hz, Nat.zero_add]
      exact ih

theorem bool_and_assoc4 : ∀ x y z w : Bool,
    (x && ((y && z) && w)) = (((x && y) && z) && w) := by decide

/-- Both shifts assigned to the same employee (Python equality) with equal
calendar dates: the symmetric condition the one-shift-per-day claim counts
once per unordered pair. -/
def shift_pair_same_day (s1 s2 : Shift) : Bool :=
  s1.employee.isSome && empKeyEq s1.employee s2.employee
    && (s1.get_date == s2.get_date)

/-- Count of unordered position pairs satisfying
`shift_pair_same_day`, the claim reading of `one_shift_per_day`. -/
def same_day_pair_count : List Shift → Nat
  | [] => 0
  | s :: rest =>
    rest.countP (fun t => shift_pair_same_day s t) + same_day_pair_count rest

theorem shift_pair_same_day_symm (a b : Shift) :
    shift_pair_same_day a b = shift_pair_same_day b a := by
  unfold shift_pair_same_day
  rw [empKeyEq_symm a.employee b.employee]
  cases hk : empKeyEq b.employee a.employee with
  | false => simp
  | true =>
    have hs : a.employee.isSome = b.employee.isSome := by
      cases ha : a.employee <;> cases hb : b.employee <;>
        simp [ha, hb, empKeyEq] at hk ⊢
    rw [hs]
    by_cases hd : a.get_date = b.get_date
    · simp [hd]
    · have hd2 : ¬ b.get_date = a.get_date := fun hc => hd hc.symm
      have hb1 : (a.get_date == b.get_date) = false := beq_eq_false_iff_ne.mpr hd
      have hb2 : (b.get_date == a.get_date) = false := beq_eq_false_iff_ne.mpr hd2
      rw [hb1, hb2]

theorem same_day_pair_count_eq_zero : ∀ l : List Shift,
    same_day_pair_count l = 0 →
    l.Pairwise (fun a b => shift_pair_same_day a b = false) := by
  intro l
  induction l with
  | nil => intro _; exact List.Pairwise.nil
  | cons s t ih =>
    intro h
    simp only [same_day_pair_count] at h
    have h1 : t.countP (fun x => shift_pair_same_day s x) = 0 := by omega
    have h2 : same_day_pair_count t = 0 := by omega
    rw [List.pairwise_cons]
    constructor
    · intro x hx
      have hz := List.countP_eq_zero.mp h1 x hx
      revert hz
      cases shift_pair_same_day s x <;> simp
    · exact ih h2

theorem pair_count_split : ∀ l : List Shift,
    l.Pairwise (fun a b => a.id ≠ b.id) →
    (l.map fun a => l.countP fun b => shift_pair_same_day a b && strLt a.id b.id).sum
      = same_day_pair_count l := by
  intro l
  induction l with
  | nil => intro _; rfl
  | cons s t ih =>
    intro hp
    rw [List.pairwise_cons] at hp
    obtain ⟨hids, hpt⟩ := hp
    simp only [List.map_cons, List.sum_cons, List.countP_cons, same_day_pair_count]
    rw [sum_map_add]
    have hself : (if (shift_pair_same_day s s && strLt s.id s.id) = true then 1 else 0) = 0 := by
      simp [strLt_irrefl]
    have htail := ih hpt
    have hmirror := sum_map_ite_eq_countP
      (fun a => shift_pair_same_day a s && strLt a.id s.id) t
    have hsplit : t.countP (fun b => shift_pair_same_day s b && strLt s.id b.id)
        + t.countP (fun a => shift_pair_same_day a s && strLt a.id s.id)
        = t.countP (fun b => shift_pair_same_day s b) := by
      apply countP_add_countP
      intro x hx
      cases hsd : shift_pair_same_day s x with
      | false =>
        have hxs : shift_pair_same_day x s = false := by
          rw [shift_pair_same_day_symm]; exact hsd
        simp [hsd, hxs]
      | true =>
        have hxs : shift_pair_same_day x s = true := by
          rw [shift_pair_same_day_symm]; exact hsd
        rcases strLt_total_of_ne (hids x hx) with hlt | hlt
        · simp [hsd, hxs, hlt, strLt_asymm hlt]
        · simp [hsd, hxs, hlt, strLt_asymm hlt]
    rw [hself, htail, hmirror]
    omega

theorem one_shift_per_day_eq_pairs : ∀ l : List Shift,
    l.Pairwise (fun a b => a.id ≠ b.id) →
    one_shift_per_day l = same_day_pair_count l := by
  intro l hp
  unfold one_shift_per_day
  rw [sum_countP_filter (fun s => s.employee.isSome)
    (fun a b => empKeyEq a.employee b.employee && (a.get_date == b.get_date)
      && strLt a.id b.id) l l]
  simp only [bool_and_assoc4]
  exact pair_count_split l hp

theorem strLt_negtrans {x y z : String} (h1 : strLt x y = false)
    (h2 : strLt y z = false) : strLt x z = false := by
  cases hxz : strLt x z with
  | false => rfl
  | true =>
    exfalso
    by_cases hxy : x = y
    · subst hxy
      rw [h2] at hxz
      exact Bool.false_ne_true hxz
    · rcases strLt_total_of_ne hxy with hlt | hlt
      · rw [h1] at hlt
        exact Bool.false_ne_true hlt
      · by_cases hyz : y = z
        · subst hyz
          rw [h1] at hxz
          exact Bool.false_ne_true hxz
        · rcases strLt_total_of_ne hyz with h3 | h3
          · rw [h2] at h3
            exact Bool.false_ne_true h3
          · have h4 := strLt_trans hxz h3
            rw [h1] at h4
            exact Bool.false_ne_true h4

theorem insert_by_perm {α : Type} (lt : α → α → Bool) (a : α) :
    ∀ l : List α, (insert_by lt a l).Perm (a :: l) := by
  intro l
  induction l with
  | nil => exact List.Perm.refl _
  | cons b t ih =>
    simp only [insert_by]
    by_cases h : lt b a = true
    · rw [if_pos h]
      exact (List.Perm.cons b ih).trans (List.Perm.swap a b t)
    · rw [if_neg h]

theorem sort_by_perm {α : Type} (lt : α → α → Bool) :
    ∀ l : List α, (sort_by lt l).Perm l := by
  intro l
  induction l with
  | nil => exact List.Perm.refl _
  | cons a t ih =>
    simp only [sort_by]
    exact (insert_by_perm lt a (sort_by lt t)).trans (List.Perm.cons a ih)

theorem insert_by_pairwise {α : Type} (lt : α → α → Bool)
    (hasymm : ∀ x y, lt x y = true → lt y x = false)
    (hneg : ∀ x y z, lt x y = false → lt y z = false → lt x z = false)
    (a : α) : ∀ l : List α,
    l.Pairwise (fun x y => lt y x = false) →
    (insert_by lt a l).Pairwise (fun x y => lt y x = false) := by
  intro l
  induction l with
  | nil =>
    intro _
    simp [insert_by]
  | cons b t ih =>
    intro hp
    rw [List.pairwise_cons] at hp
    obtain ⟨hb, ht⟩ := hp
    simp only [insert_by]
    by_cases h : lt b a = true
    · rw [if_pos h]
      rw [List.pairwise_cons]
      constructor
      · intro x hx
        rcases List.mem_cons.mp ((insert_by_perm lt a t).mem_iff.mp hx) with hxa | hxt
        · subst hxa
          exact hasymm b x h
        · exact hb x hxt
      · exact ih ht
    · rw [if_neg h]
      have hba : lt b a = false := by revert h; cases lt b a <;> simp
      rw [List.pairwise_cons]
      constructor
      · intro x hx
        rcases List.mem_cons.mp hx with hxb | hxt
        · subst hxb
          exact hba
        · exact hneg x b a (hb x hxt) hba
      · rw [List.pairwise_cons]
        exact ⟨hb, ht⟩

theorem sort_by_pairwise {α : Type} (lt : α → α → Bool)
    (hasymm : ∀ x y, lt x y = true → lt y x = false)
    (hneg : ∀ x y z, lt x y = false → lt y z = false → lt x z = false) :
    ∀ l : List α, (sort_by lt l).Pairwise (fun x y => lt y x = false) := by
  intro l
  induction l with
  | nil => exact List.Pairwise.nil
  | cons a t ih =>
    simp only [sort_by]
    exact insert_by_pairwise lt hasymm hneg a _ ih

theorem shift_sort_key_lt_asymm : ∀ a b : Shift,
    shift_sort_key_lt a b = true → shift_sort_key_lt b a = false := by
  intro a b h
  unfold shift_sort_key_lt at h ⊢
  simp only [Bool.or_eq_true, Bool.and_eq_true, decide_eq_true_eq, beq_iff_eq] at h
  rcases h with h1 | ⟨h2, h3⟩
  · have hlt : ¬ b.start < a.start := by omega
    have hne : ¬ b.start = a.start := by omega
    simp [hlt, hne]
  · have hlt : ¬ b.start < a.start := by omega
    have heq : b.start = a.start := h2.symm
    simp [hlt, heq, strLt_asymm h3]

theorem shift_sort_key_lt_negtrans : ∀ a b c : Shift,
    shift_sort_key_lt a b = false → shift_sort_key_lt b c = false →
    shift_sort_key_lt a c = false := by
  intro a b c h1 h2
  unfold shift_sort_key_lt at h1 h2 ⊢
  have hd1 : (decide (a.start < b.start) || ((a.start == b.start) && strLt a.id b.id)) = false := h1
  have hd2 : (decide (b.start < c.start) || ((b.start == c.start) && strLt b.id c.id)) = false := h2
  have hnab : ¬ a.start < b.start := by
    intro hlt
    rw [Bool.or_eq_false_iff] at hd1
    have := hd1.1
    simp [hlt] at this
  have hnbc : ¬ b.start < c.start := by
    intro hlt
    rw [Bool.or_eq_false_iff] at hd2
    have := hd2.1
    simp [hlt] at this
  have hnac : ¬ a.start < c.start := by omega
  by_cases hac : a.start = c.start
  · have hab2 : a.start = b.start := by omega
    have hbc2 : b.start = c.start := by omega
    rw [Bool.or_eq_false_iff] at hd1 hd2
    have hs1 : strLt a.id b.id = false := by
      have hx := hd1.2
      rw [beq_iff_eq.mpr hab2, Bool.true_and] at hx
      exact hx
    have hs2 : strLt b.id c.id = false := by
      have hx := hd2.2
      rw [beq_iff_eq.mpr hbc2, Bool.true_and] at hx
      exact hx
    have hs3 := strLt_negtrans hs1 hs2
    simp [hnac, hs3]
  · simp [hnac, hac]

theorem length_filterMap_entry_of : ∀ l : List Shift,
    (l.filterMap entry_of).length = l.countP (fun s => s.employee.isSome) := by
  intro l
  induction l with
  | nil => rfl
  | cons s t ih =>
    cases hemp : s.employee with
    | none =>
      simp only [List.filterMap_cons, entry_of, hemp, List.countP_cons, ih]
      simp [hemp]
    | some e =>
      simp only [List.filterMap_cons, entry_of, hemp, List.countP_cons, ih,
        List.length_cons]
      simp [hemp]

theorem lookup_cons_pair (k n : String) (v : Int) (t : List (String × Int)) :
    List.lookup n ((k, v) :: t) = if n == k then some v else List.lookup n t := by
  cases hk : n == k <;> simp [List.lookup, hk]

theorem add_employee_hours_lookup :
    ∀ (acc : List (String × Int)) (name n : String) (h : Int),
      List.lookup n (add_employee_hours acc name h)
        = if n = name then
            (match List.lookup n acc with
             | some v => some (v + h)
             | none => some h)
          else List.lookup n acc := by
  intro acc
  induction acc with
  | nil =>
    intro name n h
    simp only [add_employee_hours]
    rw [lookup_cons_pair]
    by_cases hn : n = name
    · subst hn
      simp
    · have hb : (n == name) = false := beq_eq_false_iff_ne.mpr hn
      simp [hb, hn]
  | cons kv t ih =>
    intro name n h
    obtain ⟨k, v⟩ := kv
    simp only [add_employee_hours]
    by_cases hk : k = name
    · subst hk
      simp only [beq_self_eq_true, if_true]
      rw [lookup_cons_pair, lookup_cons_pair]
      by_cases hn : n = k
      · have hb : (n == k) = true := beq_iff_eq.mpr hn
        simp [hb, hn]
      · have hb : (n == k) = false := beq_eq_false_iff_ne.mpr hn
        simp [hb, hn]
    · have hkb : (k == name) = false := beq_eq_false_iff_ne.mpr hk
      simp only [hkb, Bool.false_eq_true, if_false]
      rw [lookup_cons_pair, lookup_cons_pair]
      by_cases hn : n = k
      · have hb : (n == k) = true := beq_iff_eq.mpr hn
        have hnname : ¬ n = name := by rw [hn]; exact hk
        simp [hb, hnname]
      · have hb : (n == k) = false := beq_eq_false_iff_ne.mpr hn
        simp [hb, ih]

/-- A shift is assigned to an employee bearing the given name. -/
def assigned_with_name (n : String) (s : Shift) : Bool :=
  match s.employee with
  | some e => e.name == n
  | none => false

/-- Total hours of the shifts whose assigned employee bears the given
name: the value tracked per dict key by `format_output`. -/
def hours_for_name (shifts : List Shift) (n : String) : Int :=
  ((shifts.filter fun s => assigned_with_name n s).map fun s => s.hours).sum

/-- Some shift is assigned to an employee bearing the given name. -/
def some_assigned_with_name (shifts : List Shift) (n : String) : Bool :=
  shifts.any fun s => assigned_with_name n s

theorem fold_employee_hours :
    ∀ (l : List Shift) (acc : List (String × Int)) (n : String),
      List.lookup n (l.foldl (fun acc s =>
          match s.employee with
          | some e => add_employee_hours acc e.name s.hours
          | none => acc) acc)
        = match List.lookup n acc with
          | some v => some (v + hours_for_name l n)
          | none => if some_assigned_with_name l n = true
                    then some (hours_for_name l n) else none := by
  intro l
  induction l with
  | nil =>
    intro acc n
    simp only [List.foldl_nil, hours_for_name, some_assigned_with_name,
      List.any_nil, List.filter_nil, List.map_nil, List.sum_nil]
    cases List.lookup n acc <;> simp
  | cons s t ih =>
    intro acc n
    cases hemp : s.employee with
    | none =>
      have hnot : assigned_with_name n s = false := by
        simp [assigned_with_name, hemp]
      have hh : hours_for_name (s :: t) n = hours_for_name t n := by
        simp [hours_for_name, List.filter_cons, hnot]
      have hs : some_assigned_with_name (s :: t) n = some_assigned_with_name t n := by
        simp [some_assigned_with_name, hnot]
      simp only [List.foldl_cons, hemp]
      rw [ih, hh, hs]
    | some e =>
      simp only [List.foldl_cons, hemp]
      rw [ih, add_employee_hours_lookup]
      by_cases hn : n = e.name
      · have hm : assigned_with_name n s = true := by
          simp [assigned_with_name, hemp, beq_iff_eq.mpr hn.symm]
        have hh : hours_for_name (s :: t) n = s.hours + hours_for_name t n := by
          simp [hours_for_name, List.filter_cons, hm]
        have hs : some_assigned_with_name (s :: t) n = true := by
          simp [some_assigned_with_name, List.any_cons, hm]
        rw [if_pos hn, hh, hs]
        cases hl : List.lookup n acc with
        | some v => simp [Int.add_assoc]
        | none => simp
      · have hmb : (e.name == n) = false := beq_eq_false_iff_ne.mpr fun hc => hn hc.symm
        have hm : assigned_with_name n s = false := by
          simp [assigned_with_name, hemp, hmb]
        have hh : hours_for_name (s :: t) n = hours_for_name t n := by
          simp [hours_for_name, List.filter_cons, hm]
        have hs : some_assigned_with_name (s :: t) n = some_assigned_with_name t n := by
          simp [some_assigned_with_name, hm]
        rw [if_neg hn, hh, hs]

/-- Employee fixture for concrete evaluations: an employee with the given
id, name, target working hours and unavailable spans, all other fields at
the parse defaults. -/
def mk_emp (eid ename : String) (target : Int) (unavail : List TimeSpan) : Employee :=
  { id := eid, name := ename, skills := [], contracted_hours := 160,
    owing_hours := 0, paid_absence_hours := 0, target_working_hours := target,
    unavailable_time_spans := unavail, preferred_time_spans := [],
    mentor_id := none }

/-- Fixture for the balance-hours scenario: one employee with
`targetWorkingHours = 80` assigned shifts totaling 100 hours. -/
def emp_c1 : Employee := mk_emp "E1" "Alice" 80 []

def c1_shifts : List Shift :=
  [ { id := "S1", code := "D", start := 0, stop := 28800, hours := 60,
      employee := some emp_c1 },
    { id := "S2", code := "D", start := 86400, stop := 115200, hours := 40,
      employee := some emp_c1 } ]

/-- C1: the claim says the `balance_hours` soft penalty is
`abs(target − total) × weight`, 200 in the 80-target, 100-hour, weight-10
scenario; the `constraint_library.py` implementation divides by 100
(`abs(...) * weight // 100`), so the scenario contributes 2, not 200. -/
theorem C1_counterexample :
    balance_hours 10 c1_shifts = 2 ∧ (2 : Int) ≠ 200 :=
  ⟨by decide, by decide⟩

/-- C1 amended: the library `balance_hours` penalty is the sum over
employees with at least one assigned shift of
`abs(target − total) * weight // 100` (floor division), while the
generated engine contributes `abs(target − total) * weight` per such
employee, which yields 200 in the scenario. -/
theorem C1_amended :
    (∀ (w : Int) (shifts : List Shift),
      balance_hours w shifts
        = ((assigned_employees shifts).map fun e =>
            (((e.target_working_hours - total_hours_for shifts e).natAbs : Int)
              * w).fdiv 100).sum
      ∧ balance_hours_gen w shifts
        = ((assigned_employees shifts).map fun e =>
            ((e.target_working_hours - total_hours_for shifts e).natAbs : Int)
              * w).sum)
    ∧ balance_hours_gen 10 c1_shifts = 200 := by
  constructor
  · intro w shifts
    constructor
    · unfold balance_hours
      simp only [Int.abs_eq_natAbs]
    · unfold balance_hours_gen
      simp only [Int.abs_eq_natAbs]
  · decide

/-- Fixture for consecutive nights: one employee working night shifts on
two consecutive calendar dates (each crossing midnight). -/
def emp_c2 : Employee := mk_emp "E1" "Alice" 160 []

def c2_shifts : List Shift :=
  [ { id := "N1", code := "N", start := 79200, stop := 108000, hours := 8,
      employee := some emp_c2 },
    { id := "N2", code := "N", start := 165600, stop := 194400, hours := 8,
      employee := some emp_c2 } ]

/-- C2: the claim says an employee whose consecutive night-shift runs
never exceed the configured limit (default 2) contributes 0; the library
`avoid_consecutive_nights` penalizes `weight` for every pair of
consecutive-date night shifts and never reads the limit, so a run of
exactly 2 nights under limit 2 contributes `weight` (5 here), not 0. -/
theorem C2_counterexample :
    get_max_consecutive_night_shifts {} = 2
    ∧ avoid_consecutive_nights 5 c2_shifts = 5
    ∧ (5 : Int) ≠ 0 :=
  ⟨by decide, by decide, by decide⟩

/-- Count of ordered pairs of night shifts of the same employee on
consecutive calendar dates, the quantity `avoid_consecutive_nights`
actually penalizes. -/
def consecutive_night_pair_count (shifts : List Shift) : Nat :=
  (shifts.map fun s1 => shifts.countP fun s2 =>
    (s1.employee.isSome && s1.is_night_shift)
      && (empKeyEq s1.employee s2.employee && (s1.get_date + 1 == s2.get_date)
        && s2.is_night_shift)).sum

/-- C2 amended: the library `avoid_consecutive_nights` penalty equals the
weight times the number of same-employee night-shift pairs on consecutive
calendar dates, independently of the configured
`maxConsecutiveNightShifts` limit. -/
theorem C2_amended : ∀ (w : Int) (shifts : List Shift),
    avoid_consecutive_nights w shifts
      = w * (consecutive_night_pair_count shifts : Int) := by
  intro w shifts
  unfold avoid_consecutive_nights consecutive_night_pair_count
  rw [sum_countP_filter (fun s => s.employee.isSome && s.is_night_shift)
    (fun a b => empKeyEq a.employee b.employee && (a.get_date + 1 == b.get_date)
      && b.is_night_shift) shifts shifts]

/-- Fixture for the rest-hours constraint: a night shift ending at 08:00
of day 1 followed by a 13:00 shift of the same employee on day 1. The
second shift begins 5 hours after the first ends (within the 10-hour rest
window) and is not a night shift, but it is not a morning shift either. -/
def emp_c3 : Employee := mk_emp "E1" "Alice" 160 []

def c3_shifts : List Shift :=
  [ { id := "N1", code := "N", start := 79200, stop := 115200, hours := 10,
      employee := some emp_c3 },
    { id := "A1", code := "A", start := 133200, stop := 162000, hours := 8,
      employee := some emp_c3 } ]

/-- The C3 claim wording of the penalty: 1 per ordered pair of shifts of
the same employee where the first is a night shift, the second starts at
or after its end and before the end plus the rest window, and the second
is not itself a night shift. -/
def spec_no_night_then_morning (rest_hours : Int) (shifts : List Shift) : Nat :=
  (shifts.map fun s1 => shifts.countP fun s2 =>
    (s1.employee.isSome && s1.is_night_shift)
      && empKeyEq s1.employee s2.employee
      && decide (s1.stop ≤ s2.start)
      && decide ((s2.start : Int) < (s1.stop : Int) + rest_hours * 3600)
      && !s2.is_night_shift).sum

/-- C3: the claim counts a pair whenever the later shift is not a night
shift, the code counts it only when the later shift is a morning shift
(start hour before 12); on a same-employee pair with a 13:00 follow-up
shift inside the rest window the claim expects penalty 1 and the code
yields 0. -/
theorem C3_counterexample :
    no_night_then_morning 10 c3_shifts = 0
    ∧ spec_no_night_then_morning 10 c3_shifts = 1 :=
  ⟨by decide, by decide⟩

/-- C3 amended: `no_night_then_morning` penalizes exactly 1 per ordered
pair of shifts of the same employee where the first is an assigned night
shift, the second starts strictly after the end of the first, the second
is a morning shift (start hour before 12), and the gap from end to start
is below `rest_hours` hours. -/
theorem C3_amended : ∀ (rest_hours : Int) (shifts : List Shift),
    no_night_then_morning rest_hours shifts
      = (shifts.map fun s1 => shifts.countP fun s2 =>
          (s1.employee.isSome && s1.is_night_shift)
            && (empKeyEq s1.employee s2.employee && decide (s1.stop < s2.start)
              && s2.is_morning_shift
              && decide ((s2.start : Int) - (s1.stop : Int)
                < rest_hours * 3600))).sum := by
  intro rest_hours shifts
  unfold no_night_then_morning
  rw [sum_countP_filter (fun s => s.employee.isSome && s.is_night_shift)
    (fun a b => empKeyEq a.employee b.employee && decide (a.stop < b.start)
      && b.is_morning_shift
      && decide ((b.start : Int) - (a.stop : Int) < rest_hours * 3600))
    shifts shifts]

/-- Hard-constraint configuration activating only `minimum_coverage`. -/
def c4_config : ConstraintConfig :=
  { hard := [{ name := some "minimum_coverage" }], soft := [] }

/-- C4: the claim says the constraint engine provides a hard constraint
named `minimum_coverage` activatable by that name; the registry of
`constraint_library.py` has no such key, so a configuration activating
only that name resolves to an empty constraint list. -/
theorem C4_counterexample :
    build_constraint_provider c4_config = []
    ∧ ("minimum_coverage" ∈ HARD_CONSTRAINTS → False) :=
  ⟨by decide, by decide⟩

/-- C4 amended: only the generated engine (`get_score_constraints` of
`backend/generated/constraints.py`) activates `minimum_coverage` by name;
the scheduling library registry does not contain the name, and the
generated per-group penalty equals
`max(0, minNursesPerShift − distinct assigned employee values)`. -/
theorem C4_amended :
    (∀ cfg : ConstraintConfig, has_name cfg.hard "minimum_coverage" = true →
        "minimum_coverage" ∈ get_score_constraints cfg)
    ∧ "minimum_coverage" ∉ HARD_CONSTRAINTS
    ∧ ∀ (min_nurses : Int) (shifts : List Shift),
        minimum_coverage min_nurses shifts
          = ((dedupBy (fun a b => a == b) (shifts.map fun s => s.id)).map fun sid =>
              max 0 (min_nurses - (count_distinct_employee_values
                ((shifts.filter fun s => s.id == sid).map fun s => s.employee)
                  : Int))).sum := by
  refine ⟨?_, by decide, ?_⟩
  · intro cfg h
    simp [get_score_constraints, h]
  · intro m shifts
    unfold minimum_coverage
    have hpt : ∀ cnt : Nat, (if (cnt : Int) < m then m - (cnt : Int) else 0)
        = max 0 (m - (cnt : Int)) := by
      intro cnt
      by_cases hc : (cnt : Int) < m
      · rw [if_pos hc]
        omega
      · rw [if_neg hc]
        omega
    simp only [hpt]

/-- C4 witness: a configuration naming `minimum_coverage` in its hard list
is activated by the generated engine. -/
theorem C4_witness :
    has_name c4_config.hard "minimum_coverage" = true
    ∧ "minimum_coverage" ∈ get_score_constraints c4_config :=
  ⟨by decide, C4_amended.1 c4_config (by decide)⟩

/-- Malformed input fixture: one shift with `end` before `start` and a
locked assignment referencing an employee id that does not exist. -/
def c5_input : InputData :=
  { employees := [{ id := "E1" }],
    shifts := [{ id := "S1", start := 200, stop := 100,
                 lockedEmployeeId := some "GHOST" }] }

/-- Fallback values for positional access. -/
def default_shift : Shift :=
  { id := "", code := "", start := 0, stop := 0, hours := 0 }

def default_shift_input : ShiftInput := { id := "", start := 0, stop := 0 }

/-- C5: the claim says such input raises a ValidationError before solving
and is never silently dropped; `parse_schedule` raises nothing: it keeps
the reversed shift exactly as given and silently leaves the shift with the
unknown locked id unassigned, although no employee GHOST exists. -/
theorem C5_counterexample :
    (parse_schedule c5_input).shifts
      = [{ id := "S1", code := "M", start := 200, stop := 100, hours := 8,
           locked_employee_id := some "GHOST", employee := none }]
    ∧ (∀ s ∈ (parse_schedule c5_input).shifts, s.stop ≤ s.start)
    ∧ (parse_schedule c5_input).employees.all (fun e => e.id != "GHOST") = true :=
  ⟨by decide, by decide, by decide⟩

/-- C5 amended: `parse_schedule` performs no validation: it always
returns a schedule with one shift per input shift, preserving `start` and
`end` even when `end ≤ start`, and a locked assignment referencing an id
carried by no employee pre-assigns nothing (the shift stays unassigned
while the lock is kept), with no error raised. -/
theorem C5_amended : ∀ (data : InputData) (i : Nat), i < data.shifts.length →
    (parse_schedule data).shifts.length = data.shifts.length
    ∧ ((parse_schedule data).shifts.getD i default_shift).start
        = (data.shifts.getD i default_shift_input).start
    ∧ ((parse_schedule data).shifts.getD i default_shift).stop
        = (data.shifts.getD i default_shift_input).stop
    ∧ ((parse_schedule data).shifts.getD i default_shift).locked_employee_id
        = (data.shifts.getD i default_shift_input).lockedEmployeeId
    ∧ ∀ lid, (data.shifts.getD i default_shift_input).lockedEmployeeId = some lid →
        (∀ d ∈ data.employees, d.id ≠ lid) →
        ((parse_schedule data).shifts.getD i default_shift).employee = none := by
  intro data i hi
  have hshifts : (parse_schedule data).shifts
      = data.shifts.map
          (make_shift (employee_lookup (data.employees.map make_employee))) := rfl
  have hlen : (parse_schedule data).shifts.length = data.shifts.length := by
    rw [hshifts, List.length_map]
  have hget : (parse_schedule data).shifts.getD i default_shift
      = make_shift (employee_lookup (data.employees.map make_employee))
          (data.shifts.getD i default_shift_input) := by
    rw [hshifts, List.getD_eq_getElem?_getD, List.getElem?_map,
      List.getD_eq_getElem?_getD]
    cases hx : data.shifts[i]? with
    | none =>
      exfalso
      rw [List.getElem?_eq_none_iff] at hx
      omega
    | some x => simp
  refine ⟨hlen, ?_, ?_, ?_, ?_⟩
  · rw [hget]
    rfl
  · rw [hget]
    rfl
  · rw [hget]
    rfl
  · intro lid hlid hno
    have hlookup : employee_lookup (data.employees.map make_employee) lid = none := by
      unfold employee_lookup
      rw [List.find?_eq_none]
      intro e he2
      rw [List.mem_reverse] at he2
      rcases List.mem_map.mp he2 with ⟨d, hd, rfl⟩
      exact fun hc => hno d hd (eq_of_beq hc)
    rw [hget]
    simp only [make_shift]
    rw [hlid]
    by_cases he : lid = ""
    · simp [he]
    · simp [he, hlookup]

/-- C5 witness: the amended behaviour evaluated on the malformed fixture:
its shift survives parsing and ends up unassigned. -/
theorem C5_witness :
    0 < c5_input.shifts.length
    ∧ ((parse_schedule c5_input).shifts.getD 0 default_shift).employee = none :=
  ⟨by decide,
    (C5_amended c5_input 0 (by decide)).2.2.2.2 "GHOST" (by decide) (by decide)⟩

/-- The shift keeps its locked employee: it is assigned and the assigned
id equals the lock. -/
def locked_employee_kept (s : Shift) : Bool :=
  match s.employee, s.locked_employee_id with
  | some e, some lid => e.id == lid
  | _, _ => false

/-- C6: `honor_locked_assignments` penalizes exactly the shifts with a
lock that are unassigned or assigned away from the locked id, and a locked
shift kept on its locked employee contributes 0 even when that employee is
unavailable for the span, in which case `honor_unavailability` counts it
exactly once. -/
theorem C6_locked_assignments :
    ∀ (shifts : List Shift),
      honor_locked_assignments shifts
        = (shifts.filter fun s => s.locked_employee_id.isSome
            && (s.employee.isNone || !locked_employee_kept s)).length
      ∧ ∀ (s : Shift) (e : Employee), s.employee = some e →
          s.locked_employee_id = some e.id →
          honor_locked_assignments [s] = 0
          ∧ (e.is_unavailable s.start s.stop = true →
              honor_unavailability [s] = 1) := by
  intro shifts
  constructor
  · rw [honor_locked_assignments, List.countP_eq_length_filter]
    congr 1
    apply List.filter_congr
    intro s _
    cases hl : s.locked_employee_id with
    | none => simp [locked_employee_kept, hl]
    | some lid =>
      cases hemp : s.employee with
      | none => simp [locked_employee_kept, hl, hemp]
      | some e => simp [locked_employee_kept, hl, hemp, bne]
  · intro s e hemp hlock
    constructor
    · simp [honor_locked_assignments, List.countP_cons, hemp, hlock]
    · intro hunav
      simp [honor_unavailability, List.countP_cons, hemp, hunav]

/-- Fixture: a shift locked to employee E1, kept on E1, while E1 is
unavailable for the whole day containing the shift. -/
def emp_c6 : Employee := mk_emp "E1" "Alice" 160 [{ start := 0, stop := 86400 }]

def shift_c6 : Shift :=
  { id := "S1", code := "D", start := 28800, stop := 57600, hours := 8,
    locked_employee_id := some "E1", employee := some emp_c6 }

/-- C6 witness: the locked shift kept on its unavailable employee scores 0
on `honor_locked_assignments` and 1 on `honor_unavailability`. -/
theorem C6_witness :
    shift_c6.employee = some emp_c6
    ∧ shift_c6.locked_employee_id = some emp_c6.id
    ∧ honor_locked_assignments [shift_c6] = 0
    ∧ honor_unavailability [shift_c6] = 1 := by
  have h := (C6_locked_assignments [shift_c6]).2 shift_c6 emp_c6 rfl rfl
  exact ⟨rfl, rfl, h.1, h.2 (by decide)⟩

/-- C7: under the schedule invariant that shift ids are distinct,
`one_shift_per_day` penalizes exactly 1 per unordered pair of distinct
shifts assigned to the same employee whose starts share a calendar date,
and a zero penalty means no same-employee pair shares a date. -/
theorem C7_one_shift_per_day : ∀ (shifts : List Shift),
    shifts.Pairwise (fun a b => a.id ≠ b.id) →
    one_shift_per_day shifts = same_day_pair_count shifts
    ∧ (one_shift_per_day shifts = 0 →
        shifts.Pairwise (fun a b => shift_pair_same_day a b = false)) := by
  intro shifts hp
  have heq := one_shift_per_day_eq_pairs shifts hp
  refine ⟨heq, fun h0 => ?_⟩
  rw [heq] at h0
  exact same_day_pair_count_eq_zero shifts h0

/-- Fixture: two distinct shifts of the same employee on one date. -/
def emp_c7 : Employee := mk_emp "E1" "Alice" 160 []

def c7_shifts : List Shift :=
  [ { id := "A", code := "D", start := 28800, stop := 57600, hours := 8,
      employee := some emp_c7 },
    { id := "B", code := "E", start := 36000, stop := 64800, hours := 8,
      employee := some emp_c7 } ]

/-- C7 witness: on two same-day shifts of one employee with distinct ids
the penalty equals the unordered-pair count. -/
theorem C7_witness :
    c7_shifts.Pairwise (fun a b => a.id ≠ b.id)
    ∧ one_shift_per_day c7_shifts = same_day_pair_count c7_shifts := by
  have hp : c7_shifts.Pairwise (fun a b => a.id ≠ b.id) := by decide
  exact ⟨hp, (C7_one_shift_per_day c7_shifts hp).1⟩

/-- C8: `build_constraint_provider` drops a hard or soft entry whose name
is not a registry key: the resolved constraint list equals the one of the
configuration with that entry removed, with no error raised. -/
theorem C8_unknown_constraint_ignored :
    ∀ (h1 h2 s1 s2 : List ConfigEntry) (c : ConfigEntry),
      (recognized HARD_CONSTRAINTS c = false →
        build_constraint_provider { hard := h1 ++ c :: h2, soft := s1 }
          = build_constraint_provider { hard := h1 ++ h2, soft := s1 })
      ∧ (recognized SOFT_CONSTRAINTS c = false →
        build_constraint_provider { hard := h1, soft := s1 ++ c :: s2 }
          = build_constraint_provider { hard := h1, soft := s1 ++ s2 }) := by
  intro h1 h2 s1 s2 c
  constructor
  · intro hrec
    unfold build_constraint_provider
    simp only [List.filter_append, List.filter_cons, hrec, Bool.false_eq_true,
      if_false]
  · intro hrec
    unfold build_constraint_provider
    simp only [List.filter_append, List.filter_cons, hrec, Bool.false_eq_true,
      if_false]

/-- Unrecognized configuration entry fixture. -/
def c8_unknown : ConfigEntry := { name := some "custom_rule" }

def c8_hard : List ConfigEntry := [{ name := some "one_shift_per_day" }]

def c8_soft : List ConfigEntry :=
  [{ name := some "balance_hours", weight := some 100 }]

/-- C8 witness: dropping the unrecognized hard entry leaves the resolved
list unchanged. -/
theorem C8_witness :
    recognized HARD_CONSTRAINTS c8_unknown = false
    ∧ build_constraint_provider { hard := c8_hard ++ c8_unknown :: [], soft := c8_soft }
      = build_constraint_provider { hard := c8_hard ++ [], soft := c8_soft } :=
  ⟨by decide,
    (C8_unknown_constraint_ignored c8_hard [] c8_soft [] c8_unknown).1 (by decide)⟩

/-- C9: `TimeSpan.overlaps` is exactly the half-open intersection test
`max(start, a) < min(end, b)`, spans touching at an endpoint do not
overlap, and `Employee.is_unavailable` holds exactly when some unavailable
span overlaps the window. -/
theorem C9_overlaps : ∀ (ts : TimeSpan) (a b : Nat) (e : Employee),
    (ts.overlaps a b = true ↔ max ts.start a < min ts.stop b)
    ∧ ts.overlaps ts.stop b = false
    ∧ ts.overlaps a ts.start = false
    ∧ (e.is_unavailable a b = true
        ↔ ∃ sp ∈ e.unavailable_time_spans, sp.overlaps a b = true) := by
  intro ts a b e
  refine ⟨?_, ?_, ?_, ?_⟩
  · simp [TimeSpan.overlaps]
  · simp only [TimeSpan.overlaps, decide_eq_false_iff_not]
    omega
  · simp only [TimeSpan.overlaps, decide_eq_false_iff_not]
    omega
  · simp [Employee.is_unavailable, List.any_eq_true]

/-- Fixture: two distinct employees who share the display name N. -/
def emp_c10a : Employee := mk_emp "E1" "N" 160 []

def emp_c10b : Employee := mk_emp "E2" "N" 160 []

def c10_shifts : List Shift :=
  [ { id := "A", code := "D", start := 0, stop := 28800, hours := 8,
      employee := some emp_c10a },
    { id := "B", code := "D", start := 86400, stop := 115200, hours := 5,
      employee := some emp_c10b } ]

def c10_schedule : ShiftSchedule :=
  { employees := [emp_c10a, emp_c10b], shifts := c10_shifts }

/-- C10: the claim says `employeeHours` maps each assigned employee name
to the sum of that employee's own shift hours; the dict is keyed by name
only, so the two distinct employees named N are merged into one entry of
13 hours, which is neither the 8 hours of E1 nor the 5 hours of E2. -/
theorem C10_counterexample :
    List.lookup "N" (format_output c10_schedule).summary.employeeHours = some 13
    ∧ total_hours_for c10_schedule.shifts emp_c10a = 8
    ∧ total_hours_for c10_schedule.shifts emp_c10b = 5
    ∧ (13 : Int) ≠ 8 ∧ (13 : Int) ≠ 5 :=
  ⟨by decide, by decide, by decide, by decide, by decide⟩

/-- C10 amended: `format_output` always reports status success, the exact
shift and assignment counts, one schedule entry per assigned shift taken
from a `(start, id)`-ascending arrangement of the shifts, an
`employeeHours` dict mapping each name to the total hours of all shifts
whose assigned employee bears that name (the per-employee total only when
names are unique), and the score string `0hard/0soft` when the score is
absent. -/
theorem C10_format_output : ∀ (sched : ShiftSchedule),
    (format_output sched).status = "success"
    ∧ (format_output sched).summary.totalShifts = sched.shifts.length
    ∧ (format_output sched).summary.assignedShifts
        = sched.shifts.countP (fun s => s.employee.isSome)
    ∧ (format_output sched).summary.unassignedShifts
        = sched.shifts.length - sched.shifts.countP (fun s => s.employee.isSome)
    ∧ (format_output sched).schedule.length
        = sched.shifts.countP (fun s => s.employee.isSome)
    ∧ (∃ l : List Shift, l.Perm sched.shifts
        ∧ l.Pairwise (fun a b => shift_sort_key_lt b a = false)
        ∧ (format_output sched).schedule = l.filterMap entry_of)
    ∧ (∀ n : String,
        List.lookup n (format_output sched).summary.employeeHours
          = if some_assigned_with_name sched.shifts n = true
            then some (hours_for_name sched.shifts n) else none)
    ∧ (sched.score = none → (format_output sched).score = "0hard/0soft") := by
  intro sched
  have hperm : (sort_by shift_sort_key_lt sched.shifts).Perm sched.shifts :=
    sort_by_perm _ _
  refine ⟨rfl, rfl, ?_, ?_, ?_, ?_, ?_, ?_⟩
  · exact (List.countP_eq_length_filter _ _).symm
  · show sched.shifts.length - (sched.shifts.filter fun s => s.employee.isSome).length
      = sched.shifts.length - sched.shifts.countP (fun s => s.employee.isSome)
    rw [List.countP_eq_length_filter]
  · show ((sort_by shift_sort_key_lt sched.shifts).filterMap entry_of).length = _
    rw [length_filterMap_entry_of]
    exact hperm.countP_eq _
  · exact ⟨sort_by shift_sort_key_lt sched.shifts, hperm,
      sort_by_pairwise _ shift_sort_key_lt_asymm shift_sort_key_lt_negtrans _, rfl⟩
  · intro n
    have hhours : hours_for_name (sort_by shift_sort_key_lt sched.shifts) n
        = hours_for_name sched.shifts n :=
      List.Perm.sum_eq (List.Perm.map _ (List.Perm.filter _ hperm))
    have hany : some_assigned_with_name (sort_by shift_sort_key_lt sched.shifts) n
        = some_assigned_with_name sched.shifts n := by
      apply Bool.eq_iff_iff.mpr
      simp only [some_assigned_with_name, List.any_eq_true]
      constructor
      · rintro ⟨x, hx, hpx⟩
        exact ⟨x, hperm.mem_iff.mp hx, hpx⟩
      · rintro ⟨x, hx, hpx⟩
        exact ⟨x, hperm.mem_iff.mpr hx, hpx⟩
    show List.lookup n ((sort_by shift_sort_key_lt sched.shifts).foldl (fun acc s =>
        match s.employee with
        | some e => add_employee_hours acc e.name s.hours
        | none => acc) []) = _
    rw [fold_employee_hours]
    simp only [List.lookup_nil]
    rw [hhours, hany]
  · intro hscore
    show format_score sched.score = "0hard/0soft"
    rw [hscore]
    rfl

/-- C10 witness: on the fixture schedule, which carries no score, the
score renders as the zero score. -/
theorem C10_witness :
    c10_schedule.score = none
    ∧ (format_output c10_schedule).score = "0hard/0soft" :=
  ⟨rfl, (C10_format_output c10_schedule).2.2.2.2.2.2.2 rfl⟩
